import Mathlib

/-
  Verification development for the zotero-ai-reader repository.

  The Python source is shallowly embedded:
  * Python strings are `String` or `List Char` (a Python `str` is a sequence
    of unicode code points, matching `List Char`);
  * Python floats are modelled as real numbers `ℝ`;
  * Python dicts are association lists (`List (name × entry)`) with
    first-match lookup and in-place overwrite on update, or, for the TF-IDF
    vectors, a key list together with a lookup-with-default-0 function
    (`String → ℝ`), which is exactly how `dict.get(k, 0)` is used;
  * the remote Zotero API is a state record (`ZState`): the folder listing,
    a fresh-key counter, and logs of creation / refresh / persist /
    warning events, so that "performs zero creation calls" is a statement
    about the log;
  * Python exceptions are `Except`, caught exception handlers pattern-match
    on the `Except` value.

  Each embedded definition keeps the name of the Python function it models
  (keyword_classifier.py, organize.py, organizer.py).
-/

namespace Spec2Proof

/-! ## Keyword normalization: keyword_classifier.py, normalize_keyword (lines 59-74)
    and split_keywords (lines 76-87) -/

/-- Character-class test for the Python regex fragment `\w` (with its unicode
semantics restricted to ASCII alphanumerics, underscore and the CJK block
一-龥 that the source names explicitly). -/
def isWordChar (c : Char) : Bool :=
  c.isAlphanum || c = '_' || (decide (0x4e00 ≤ c.toNat) && decide (c.toNat ≤ 0x9fa5))

/-- Characters kept by `re.sub(r'[^\w\s\-一-龥]', '', keyword)`. -/
def keepChar (c : Char) : Bool := isWordChar c || c.isWhitespace || c = '-'

/-- Worker for `re.sub(r'<[^>]+>', '', s)`: left-to-right scan; after an
unmatched `<` the characters seen so far are buffered (in reverse) in the
second argument; a later `>` closes and deletes the tag (the buffer must be
nonempty, since `[^>]+` needs at least one character, so a literal pair `<>`
is kept); end of input flushes the buffer literally. -/
def stripHtmlAux : List Char → Option (List Char) → List Char
  | [], none => []
  | [], some pend => '<' :: pend.reverse
  | c :: rest, none =>
    if c = '<' then stripHtmlAux rest (some [])
    else c :: stripHtmlAux rest none
  | c :: rest, some pend =>
    if c = '>' then
      if pend = [] then '<' :: '>' :: stripHtmlAux rest none
      else stripHtmlAux rest none
    else stripHtmlAux rest (some (c :: pend))

/-- `re.sub(r'<[^>]+>', '', s)` in normalize_keyword. -/
def stripHtml (s : List Char) : List Char := stripHtmlAux s none

/-- `re.sub(r'\s+', ' ', s)`: every maximal run of whitespace becomes one
space. -/
def collapseWs : List Char → List Char
  | [] => []
  | [c] => if c.isWhitespace then [' '] else [c]
  | c1 :: c2 :: rest =>
    if c1.isWhitespace && c2.isWhitespace then collapseWs (c2 :: rest)
    else (if c1.isWhitespace then ' ' else c1) :: collapseWs (c2 :: rest)

/-- Python `str.strip()`: drop leading and trailing whitespace. -/
def stripWs (s : List Char) : List Char :=
  ((s.dropWhile Char.isWhitespace).reverse.dropWhile Char.isWhitespace).reverse

/-- keyword_classifier.normalize_keyword: strip HTML tags, lowercase,
strip, keep word characters / whitespace / hyphen / CJK, collapse
whitespace, strip. -/
def normalize_keyword (s : List Char) : List Char :=
  let s1 := stripHtml s
  let s2 := stripWs (s1.map Char.toLower)
  let s3 := s2.filter keepChar
  stripWs (collapseWs s3)

/-- Python `str.split(sep)` for a one-character separator (keeps empty
pieces, `"".split(',') == ['']`). -/
def splitOnChar (sep : Char) : List Char → List (List Char)
  | [] => [[]]
  | c :: rest =>
    if c = sep then [] :: splitOnChar sep rest
    else
      match splitOnChar sep rest with
      | [] => [[c]]
      | p :: ps => (c :: p) :: ps

/-- The character class of `re.sub(r'[，；、\n\r|]', ',', keywords_text)`. -/
def delimChars : List Char := ['，', '；', '、', '\n', '\r', '|']

/-- keyword_classifier.split_keywords: replace the delimiter characters by
a comma, split on commas, strip and normalize each piece, keep the pieces
that are nonempty and at least 2 characters long. -/
def split_keywords (t : List Char) : List (List Char) :=
  let replaced := t.map fun c => if c ∈ delimChars then ',' else c
  let pieces := splitOnChar ',' replaced
  let kws := pieces.map fun p => normalize_keyword (stripWs p)
  kws.filter fun kw => decide (kw ≠ []) && decide (2 ≤ kw.length)

/-- The stopword set of the repository (keyword_analysis/keyword_top20_analyzer.py,
STOP_WORDS), reduced here to its plain-English core; used only to witness
that keyword_classifier.split_keywords does not drop stopwords. -/
def STOP_WORDS : List (List Char) :=
  [['t','h','e'], ['a','n','d'], ['o','f'], ['f','o','r'], ['w','i','t','h'],
   ['t','h','i','s'], ['t','h','a','t'], ['d','a','t','a'], ['m','o','d','e','l']]

/-! ### Idempotence of normalize_keyword -/

theorem toNat_ofNat_valid {n : Nat} (h : n.isValidChar) : (Char.ofNat n).toNat = n := by
  rw [Char.ofNat, dif_pos h]; rfl

theorem toLower_toLower (c : Char) : c.toLower.toLower = c.toLower := by
  simp only [Char.toLower]
  by_cases h : c.toNat ≥ 65 ∧ c.toNat ≤ 90
  · rw [if_pos h]
    have hv : (c.toNat + 32).isValidChar := Or.inl (by omega)
    rw [if_neg (by rw [toNat_ofNat_valid hv]; omega)]
  · rw [if_neg h, if_neg h]

theorem stripHtmlAux_no_lt : ∀ {s : List Char}, '<' ∉ s → stripHtmlAux s none = s
  | [], _ => rfl
  | c :: rest, h => by
    have hc : c ≠ '<' := fun hc => h (hc ▸ List.mem_cons_self c rest)
    have hr : '<' ∉ rest := fun hr => h (List.mem_cons_of_mem c hr)
    simp only [stripHtmlAux, if_neg hc]
    rw [stripHtmlAux_no_lt hr]

/-- The "no two adjacent whitespace characters" relation. -/
def wsOk (a b : Char) : Prop := ¬(a.isWhitespace = true ∧ b.isWhitespace = true)

theorem collapseWs_head : ∀ (c : Char) (r : List Char),
    ∃ t, collapseWs (c :: r) = (if c.isWhitespace then ' ' else c) :: t
  | c, [] => ⟨[], by by_cases h : c.isWhitespace <;> simp [collapseWs, h]⟩
  | c, c2 :: rest => by
    by_cases h : c.isWhitespace && c2.isWhitespace
    · obtain ⟨t, ht⟩ := collapseWs_head c2 rest
      refine ⟨t, ?_⟩
      have hc : c.isWhitespace = true := by
        cases hx : c.isWhitespace <;> simp [hx] at h ⊢
      have hc2 : c2.isWhitespace = true := by
        cases hx : c2.isWhitespace <;> simp [hx] at h ⊢
      simp [collapseWs, h, ht, hc, hc2]
    · exact ⟨collapseWs (c2 :: rest), by simp only [collapseWs, if_neg h]⟩

theorem mem_collapseWs : ∀ {l : List Char} {x : Char}, x ∈ collapseWs l → x = ' ' ∨ x ∈ l
  | [], x, hx => by simp [collapseWs] at hx
  | [c], x, hx => by
    by_cases h : c.isWhitespace <;> simp [collapseWs, h] at hx <;> simp [hx]
  | c1 :: c2 :: rest, x, hx => by
    by_cases h : c1.isWhitespace && c2.isWhitespace
    · rw [collapseWs, if_pos h] at hx
      rcases mem_collapseWs hx with h1 | h1
      · exact Or.inl h1
      · exact Or.inr (List.mem_cons_of_mem _ h1)
    · rw [collapseWs, if_neg h] at hx
      rcases List.mem_cons.mp hx with h1 | h1
      · by_cases hw : c1.isWhitespace
        · simp only [if_pos hw] at h1; exact Or.inl h1
        · simp only [if_neg hw] at h1; exact Or.inr (h1 ▸ List.mem_cons_self _ _)
      · rcases mem_collapseWs h1 with h2 | h2
        · exact Or.inl h2
        · exact Or.inr (List.mem_cons_of_mem _ h2)

theorem collapseWs_ws_eq_space : ∀ {l : List Char} {x : Char},
    x ∈ collapseWs l → x.isWhitespace = true → x = ' '
  | [], x, hx, _ => by simp [collapseWs] at hx
  | [c], x, hx, hw => by
    by_cases h : c.isWhitespace <;> simp [collapseWs, h] at hx
    · exact hx
    · exact absurd (hx ▸ hw) h
  | c1 :: c2 :: rest, x, hx, hw => by
    by_cases h : c1.isWhitespace && c2.isWhitespace
    · rw [collapseWs, if_pos h] at hx
      exact collapseWs_ws_eq_space hx hw
    · rw [collapseWs, if_neg h] at hx
      rcases List.mem_cons.mp hx with h1 | h1
      · by_cases hc : c1.isWhitespace
        · simpa [hc] using h1
        · have hx1 : x = c1 := by simpa [hc] using h1
          rw [hx1] at hw; simp [hw] at hc
      · exact collapseWs_ws_eq_space h1 hw

theorem collapseWs_chain : ∀ (l : List Char), (collapseWs l).Chain' wsOk
  | [] => by simp [collapseWs]
  | [c] => by by_cases h : c.isWhitespace <;> simp [collapseWs, h]
  | c1 :: c2 :: rest => by
    by_cases h : c1.isWhitespace && c2.isWhitespace
    · rw [collapseWs, if_pos h]
      exact collapseWs_chain (c2 :: rest)
    · rw [collapseWs, if_neg h]
      obtain ⟨t, ht⟩ := collapseWs_head c2 rest
      rw [ht]
      rw [List.chain'_cons]
      constructor
      · intro ⟨ha, hb⟩
        apply h
        have h1 : c1.isWhitespace = true := by
          by_cases hc : c1.isWhitespace
          · exact hc
          · rw [if_neg hc] at ha; rw [ha] at hc; exact absurd rfl hc
        have h2 : c2.isWhitespace = true := by
          by_cases hc : c2.isWhitespace
          · exact hc
          · rw [if_neg hc] at hb; rw [hb] at hc; exact absurd rfl hc
        rw [h1, h2]; rfl
      · rw [← ht]; exact collapseWs_chain (c2 :: rest)

theorem collapseWs_eq_self : ∀ {l : List Char},
    (∀ x ∈ l, x.isWhitespace = true → x = ' ') → l.Chain' wsOk → collapseWs l = l
  | [], _, _ => rfl
  | [c], hsp, _ => by
    by_cases h : c.isWhitespace
    · rw [collapseWs, if_pos h, hsp c (List.mem_singleton_self c) h]
    · rw [collapseWs, if_neg h]
  | c1 :: c2 :: rest, hsp, hch => by
    have hnot : ¬(c1.isWhitespace && c2.isWhitespace) = true := by
      intro hb
      exact (List.chain'_cons.mp hch).1
        ⟨(Bool.and_eq_true_iff.mp hb).1, (Bool.and_eq_true_iff.mp hb).2⟩
    rw [collapseWs, if_neg hnot]
    have htail : collapseWs (c2 :: rest) = c2 :: rest :=
      collapseWs_eq_self (fun x hx => hsp x (List.mem_cons_of_mem _ hx))
        (List.chain'_cons.mp hch).2
    rw [htail]
    by_cases h : c1.isWhitespace
    · rw [if_pos h, hsp c1 (List.mem_cons_self _ _) h]
    · rw [if_neg h]

theorem head?_dropWhile {α : Type} {p : α → Bool} :
    ∀ {l : List α} {c : α}, (l.dropWhile p).head? = some c → p c = false
  | [], c, h => by simp [List.dropWhile] at h
  | a :: t, c, h => by
    by_cases ha : p a
    · rw [List.dropWhile_cons, if_pos ha] at h
      exact head?_dropWhile h
    · rw [List.dropWhile_cons, if_neg ha] at h
      simp only [List.head?_cons, Option.some.injEq] at h
      rw [← h]
      exact Bool.not_eq_true _ ▸ Bool.of_not_eq_true ha

theorem dropWhile_eq_self_of_head {α : Type} {p : α → Bool} {l : List α}
    (h : ∀ c, l.head? = some c → p c = false) : l.dropWhile p = l := by
  cases l with
  | nil => rfl
  | cons a t =>
    rw [List.dropWhile_cons, if_neg]
    rw [h a rfl]
    simp

theorem mem_stripWs {l : List Char} {x : Char} (h : x ∈ stripWs l) : x ∈ l := by
  unfold stripWs at h
  rw [List.mem_reverse] at h
  have h2 := (List.dropWhile_sublist _).mem h
  rw [List.mem_reverse] at h2
  exact (List.dropWhile_sublist _).mem h2

theorem stripWs_head? {l : List Char} {c : Char}
    (h : (stripWs l).head? = some c) : c.isWhitespace = false := by
  unfold stripWs at h
  rw [List.head?_reverse] at h
  obtain ⟨t, ht⟩ := List.dropWhile_suffix
    (l := (l.dropWhile Char.isWhitespace).reverse) Char.isWhitespace
  have hlast : ((l.dropWhile Char.isWhitespace).reverse).getLast? = some c := by
    rw [← ht, List.getLast?_append, h]; rfl
  rw [List.getLast?_eq_head?_reverse, List.reverse_reverse] at hlast
  exact head?_dropWhile hlast

theorem stripWs_getLast? {l : List Char} {c : Char}
    (h : (stripWs l).getLast? = some c) : c.isWhitespace = false := by
  unfold stripWs at h
  rw [List.getLast?_eq_head?_reverse, List.reverse_reverse] at h
  exact head?_dropWhile h

theorem stripWs_eq_self {l : List Char}
    (hh : ∀ c, l.head? = some c → c.isWhitespace = false)
    (hl : ∀ c, l.getLast? = some c → c.isWhitespace = false) : stripWs l = l := by
  unfold stripWs
  rw [dropWhile_eq_self_of_head hh]
  rw [dropWhile_eq_self_of_head (fun c hc => hl c (by rwa [List.getLast?_eq_head?_reverse]))]
  exact List.reverse_reverse l

theorem chain'_wsOk_reverse {l : List Char} (h : l.Chain' wsOk) : l.reverse.Chain' wsOk := by
  rw [List.chain'_reverse]
  exact h.imp (fun a b hab ⟨x, y⟩ => hab ⟨y, x⟩)

theorem stripWs_chain {l : List Char} (h : l.Chain' wsOk) : (stripWs l).Chain' wsOk := by
  unfold stripWs
  apply chain'_wsOk_reverse
  apply List.Chain'.suffix _ (List.dropWhile_suffix _)
  apply chain'_wsOk_reverse
  exact List.Chain'.suffix h (List.dropWhile_suffix _)

theorem map_eq_self_of_mem {α : Type} {f : α → α} :
    ∀ {l : List α}, (∀ x ∈ l, f x = x) → l.map f = l
  | [], _ => rfl
  | a :: t, h => by
    rw [List.map_cons, h a (List.mem_cons_self _ _),
      map_eq_self_of_mem (fun x hx => h x (List.mem_cons_of_mem _ hx))]

theorem normalize_keyword_mem {s : List Char} {x : Char} (hx : x ∈ normalize_keyword s) :
    keepChar x = true ∧ x.toLower = x := by
  unfold normalize_keyword at hx
  have h1 := mem_stripWs hx
  rcases mem_collapseWs h1 with h2 | h2
  · subst h2
    exact ⟨by decide, by decide⟩
  · rw [List.mem_filter] at h2
    refine ⟨h2.2, ?_⟩
    have h3 := mem_stripWs h2.1
    rw [List.mem_map] at h3
    obtain ⟨c0, _, hc0⟩ := h3
    rw [← hc0]
    exact toLower_toLower c0

theorem normalize_keyword_canonical (s : List Char) :
    (∀ x ∈ normalize_keyword s, x.isWhitespace = true → x = ' ') ∧
    (normalize_keyword s).Chain' wsOk ∧
    (∀ c, (normalize_keyword s).head? = some c → c.isWhitespace = false) ∧
    (∀ c, (normalize_keyword s).getLast? = some c → c.isWhitespace = false) := by
  refine ⟨?_, ?_, ?_, ?_⟩
  · intro x hx hw
    exact collapseWs_ws_eq_space (mem_stripWs hx) hw
  · exact stripWs_chain (collapseWs_chain _)
  · intro c hc; exact stripWs_head? hc
  · intro c hc; exact stripWs_getLast? hc

/-- Idempotence of keyword normalization, used both for the C7 claim and
for the characterization of split_keywords output. -/
theorem normalize_keyword_idem (s : List Char) :
    normalize_keyword (normalize_keyword s) = normalize_keyword s := by
  obtain ⟨hsp, hch, hhd, hlast⟩ := normalize_keyword_canonical s
  have hlt : '<' ∉ normalize_keyword s := by
    intro hmem
    have := (normalize_keyword_mem hmem).1
    simp [keepChar, isWordChar] at this
  have h1 : stripHtml (normalize_keyword s) = normalize_keyword s :=
    stripHtmlAux_no_lt hlt
  have h2 : (normalize_keyword s).map Char.toLower = normalize_keyword s :=
    map_eq_self_of_mem (fun x hx => (normalize_keyword_mem hx).2)
  have h3 : stripWs (normalize_keyword s) = normalize_keyword s :=
    stripWs_eq_self hhd hlast
  have h4 : (normalize_keyword s).filter keepChar = normalize_keyword s :=
    List.filter_eq_self.mpr (fun x hx => (normalize_keyword_mem hx).1)
  have h5 : collapseWs (normalize_keyword s) = normalize_keyword s :=
    collapseWs_eq_self hsp hch
  conv_lhs => rw [normalize_keyword]
  rw [h1, h2, h3, h4, h5, h3]

/-- C7: keyword normalization is idempotent: for every input string s,
including the empty string, normalize(normalize(s)) equals normalize(s). -/
theorem c7_normalize_idempotent (s : List Char) :
    normalize_keyword (normalize_keyword s) = normalize_keyword s :=
  normalize_keyword_idem s

/-- C8 (amended): split_keywords replaces the configured delimiter characters
with a comma, splits on commas, normalizes each piece, and keeps exactly the
nonempty pieces of length at least 2; every returned keyword is a normalization
fixed point; no stopword filtering is performed. -/
theorem c8_split_keywords_pipeline (t : List Char) (kw : List Char)
    (h : kw ∈ split_keywords t) :
    kw ≠ [] ∧ 2 ≤ kw.length ∧ normalize_keyword kw = kw ∧
    ∃ p ∈ splitOnChar ',' (t.map fun c => if c ∈ delimChars then ',' else c),
      kw = normalize_keyword (stripWs p) := by
  unfold split_keywords at h
  rw [List.mem_filter] at h
  obtain ⟨hmem, hcond⟩ := h
  rw [Bool.and_eq_true_iff, decide_eq_true_iff, decide_eq_true_iff] at hcond
  rw [List.mem_map] at hmem
  obtain ⟨p, hp, hkw⟩ := hmem
  refine ⟨hcond.1, hcond.2, ?_, p, hp, hkw.symm⟩
  rw [← hkw]
  exact normalize_keyword_idem (stripWs p)

theorem c8_witness :
    ['f','l','o','o','d'] ≠ ([] : List Char) ∧ 2 ≤ ['f','l','o','o','d'].length ∧
    normalize_keyword ['f','l','o','o','d'] = ['f','l','o','o','d'] ∧
    ∃ p ∈ splitOnChar ','
      (("flood,drought".data).map fun c => if c ∈ delimChars then ',' else c),
      ['f','l','o','o','d'] = normalize_keyword (stripWs p) :=
  c8_split_keywords_pipeline ("flood,drought".data) ['f','l','o','o','d'] (by decide)

/-- C8 counterexample: the stopword "the" (a member of the repository's own
stopword list) survives split_keywords, so the claimed stopword dropping does
not happen in keyword_classifier.split_keywords. -/
theorem c8_counterexample :
    ['t','h','e'] ∈ split_keywords ("the,flood".data) ∧ ['t','h','e'] ∈ STOP_WORDS :=
  ⟨by decide, by decide⟩

/-! ## Similarity scoring: keyword_classifier.py, levenshtein_distance (lines
136-156), string_similarity (158-173), tfidf_vectorize (185-221),
cosine_similarity (223-240), build_cooccurrence_matrix (242-258),
calculate_keyword_similarity (260-304) -/

/-- Inner loop of the Levenshtein dynamic program: given the previous row
(suffix starting at column j) and the last entry `cur` of the current row,
emit the rest of the current row. -/
def levInner (c1 : Char) : List Char → Nat → List Nat → List Nat
  | [], _, _ => []
  | _ :: _, _, [] => []
  | c2 :: cs, cur, pj :: rest =>
    let v := min (min (rest.headD 0 + 1) (cur + 1)) (pj + (if c1 = c2 then 0 else 1))
    v :: levInner c1 cs v rest

/-- Outer loop of levenshtein_distance: fold the rows over s1, with i the
(0-based) index of the current character of s1. -/
def levLoop (s2 : List Char) : List Char → List Nat → Nat → List Nat
  | [], prev, _ => prev
  | c1 :: cs, prev, i => levLoop s2 cs ((i + 1) :: levInner c1 s2 (i + 1) prev) (i + 1)

/-- levenshtein_distance after the initial argument swap (so len s1 ≥ len s2). -/
def levenshtein_core (s1 s2 : List Char) : Nat :=
  if s2.length = 0 then s1.length
  else (levLoop s2 s1 (List.range (s2.length + 1)) 0).getLastD 0

/-- keyword_classifier.levenshtein_distance. -/
def levenshtein_distance (s1 s2 : List Char) : Nat :=
  if s1.length < s2.length then levenshtein_core s2 s1 else levenshtein_core s1 s2

/-- keyword_classifier.string_similarity. -/
noncomputable def string_similarity (s1 s2 : String) : ℝ :=
  if s1.data = [] ∨ s2.data = [] then 0
  else if s1 = s2 then 1
  else if max s1.length s2.length = 0 then 1
  else 1 - (levenshtein_distance s1.data s2.data : ℝ) / ((max s1.length s2.length : ℕ) : ℝ)

/-- Number of documents containing keyword k (doc_freq in tfidf_vectorize). -/
def docFreq (docs : List (List String)) (k : String) : Nat :=
  (docs.filter (fun d => decide (k ∈ d))).length

/-- `max(kw_count.values()) if kw_count else 1` in tfidf_vectorize. -/
def maxCount (doc : List String) : Nat :=
  if doc = [] then 1 else ((doc.dedup).map (fun k => doc.count k)).foldl max 0

/-- Term frequency of k in one document. -/
noncomputable def tf (doc : List String) (k : String) : ℝ :=
  (doc.count k : ℝ) / (maxCount doc : ℝ)

/-- Inverse document frequency: `math.log(total_docs / (doc_freq[kw] + 1))`. -/
noncomputable def idf (docs : List (List String)) (k : String) : ℝ :=
  Real.log ((docs.length : ℝ) / ((docFreq docs k : ℝ) + 1))

/-- The TF-IDF vector of one document, as the lookup-with-default-0 function
of the Python dict whose keys are the distinct keywords of the document. -/
noncomputable def tfidfVec (docs : List (List String)) (doc : List String) (k : String) : ℝ :=
  if k ∈ doc then tf doc k * idf docs k else 0

/-- keyword_classifier.cosine_similarity on two dicts, each given as its key
list together with its lookup-with-default-0 function: all_keys is the set
union of the key sets, the dot product ranges over all_keys with
`vec.get(k, 0)` semantics, each norm ranges over that dict's own values,
and a zero norm yields 0. -/
noncomputable def cosine_similarity (keys1 keys2 : List String) (v1 v2 : String → ℝ) : ℝ :=
  if (keys1 ++ keys2).dedup = [] then 0
  else if Real.sqrt ((keys1.map (fun k => v1 k * v1 k)).sum) = 0 ∨
      Real.sqrt ((keys2.map (fun k => v2 k * v2 k)).sum) = 0 then 0
  else ((keys1 ++ keys2).dedup.map (fun k => v1 k * v2 k)).sum /
    (Real.sqrt ((keys1.map (fun k => v1 k * v1 k)).sum) *
      Real.sqrt ((keys2.map (fun k => v2 k * v2 k)).sum))

/-- The `similarities` list of calculate_keyword_similarity: the cosine
similarity of the TF-IDF vectors for every pair (document containing kw1,
document containing kw2). The source indexes tfidf_vectors by document
position; since the vector of a document is a function of the document
itself, filtering the documents directly yields the same list. -/
noncomputable def simsList (docs : List (List String)) (kw1 kw2 : String) : List ℝ :=
  (docs.filter (fun d => decide (kw1 ∈ d))).flatMap (fun d1 =>
    (docs.filter (fun d => decide (kw2 ∈ d))).map (fun d2 =>
      cosine_similarity d1.dedup d2.dedup (tfidfVec docs d1) (tfidfVec docs d2)))

/-- The semantic-similarity part of calculate_keyword_similarity: average of
the similarities list; stays 0 when the list is empty (i.e. when one of the
keywords appears in no document). -/
noncomputable def semantic_similarity (docs : List (List String)) (kw1 kw2 : String) : ℝ :=
  if simsList docs kw1 kw2 = [] then 0
  else (simsList docs kw1 kw2).sum / ((simsList docs kw1 kw2).length : ℝ)

/-- Number of documents whose keyword set contains both kw1 and kw2: the
entry of build_cooccurrence_matrix at the sorted pair (kw1, kw2), since each
document contributes 1 for every unordered pair of distinct members of its
keyword set. -/
def coocCount (docs : List (List String)) (kw1 kw2 : String) : Nat :=
  (docs.filter (fun d => decide (kw1 ∈ d) && decide (kw2 ∈ d))).length

/-- The co-occurrence part of calculate_keyword_similarity: the sorted pair
is a key of the matrix iff the keywords are distinct and co-occur in at
least one document, and then `min(1, log(count+1)/log(10))` is used. -/
noncomputable def cooccurrence_similarity (docs : List (List String)) (kw1 kw2 : String) : ℝ :=
  if kw1 ≠ kw2 ∧ 0 < coocCount docs kw1 kw2 then
    min 1 (Real.log ((coocCount docs kw1 kw2 : ℝ) + 1) / Real.log 10)
  else 0

/-- COOCCURRENCE_WEIGHT = 0.3 (keyword_classifier.py line 51). -/
noncomputable def COOCCURRENCE_WEIGHT : ℝ := 0.3

/-- keyword_classifier.calculate_keyword_similarity: the weighted sum
`0.5 * str_sim + 0.3 * semantic_sim + COOCCURRENCE_WEIGHT * cooccurrence_sim`. -/
noncomputable def calculate_keyword_similarity
    (docs : List (List String)) (kw1 kw2 : String) : ℝ :=
  0.5 * string_similarity kw1 kw2 + 0.3 * semantic_similarity docs kw1 kw2 +
    COOCCURRENCE_WEIGHT * cooccurrence_similarity docs kw1 kw2

/-! ### Bounds on the similarity components -/

theorem levInner_getD_le (c1 : Char) : ∀ (s2 : List Char) (cur : Nat) (prev : List Nat)
    (j : Nat), (levInner c1 s2 cur prev).getD j 0 ≤ prev.getD j 0 + 1
  | [], _, _, _ => by simp [levInner]
  | _ :: _, _, [], _ => by simp [levInner]
  | c2 :: cs, cur, pj :: rest, 0 => by
    simp only [levInner, List.getD_cons_zero]
    have h1 : min (min (rest.headD 0 + 1) (cur + 1)) (pj + (if c1 = c2 then 0 else 1)) ≤
        pj + (if c1 = c2 then 0 else 1) := min_le_right _ _
    have h2 : pj + (if c1 = c2 then 0 else 1) ≤ pj + 1 := by split <;> omega
    omega
  | c2 :: cs, cur, pj :: rest, j + 1 => by
    simp only [levInner, List.getD_cons_succ]
    exact levInner_getD_le c1 cs _ rest j

theorem levLoop_getD_le (s2 : List Char) : ∀ (s1 : List Char) (prev : List Nat) (i : Nat),
    (∀ j, prev.getD j 0 ≤ max i j) →
    ∀ j, (levLoop s2 s1 prev i).getD j 0 ≤ max (i + s1.length) j
  | [], prev, i, hp, j => by simpa [levLoop] using hp j
  | c1 :: cs, prev, i, hp, j => by
    rw [levLoop]
    have hnew : ∀ j, ((i + 1) :: levInner c1 s2 (i + 1) prev).getD j 0 ≤ max (i + 1) j := by
      intro j
      cases j with
      | zero => rw [List.getD_cons_zero]; omega
      | succ j =>
        rw [List.getD_cons_succ]
        have h1 := levInner_getD_le c1 s2 (i + 1) prev j
        have h2 := hp j
        omega
    have hres := levLoop_getD_le s2 cs ((i + 1) :: levInner c1 s2 (i + 1) prev) (i + 1) hnew j
    have harith : i + 1 + cs.length = i + (c1 :: cs).length := by
      simp [List.length_cons]; omega
    rw [harith] at hres
    exact hres

theorem levInner_length (c1 : Char) : ∀ (s2 : List Char) (cur : Nat) (prev : List Nat),
    (levInner c1 s2 cur prev).length = min s2.length prev.length
  | [], _, _ => by simp [levInner]
  | _ :: _, _, [] => by simp [levInner]
  | c2 :: cs, cur, pj :: rest => by
    simp only [levInner, List.length_cons, levInner_length c1 cs _ rest]
    omega

theorem levLoop_length (s2 : List Char) : ∀ (s1 : List Char) (prev : List Nat) (i : Nat),
    prev.length = s2.length + 1 → (levLoop s2 s1 prev i).length = s2.length + 1
  | [], prev, _, hp => by simpa [levLoop] using hp
  | c1 :: cs, prev, i, hp => by
    rw [levLoop]
    apply levLoop_length s2 cs _ (i + 1)
    rw [List.length_cons, levInner_length, hp]
    omega

theorem getLastD_eq_getD : ∀ (l : List Nat) (d : Nat), l ≠ [] →
    l.getLastD d = l.getD (l.length - 1) d
  | [], _, h => absurd rfl h
  | [a], _, _ => rfl
  | a :: b :: t, d, _ => by
    have ih := getLastD_eq_getD (b :: t) a (by simp)
    have hlt : t.length < (b :: t).length := by simp
    rw [List.getLastD_cons, ih]
    simp only [List.length_cons, Nat.add_sub_cancel]
    rw [List.getD_eq_getElem (b :: t) a hlt, List.getD_cons_succ,
      List.getD_eq_getElem (b :: t) d hlt]

theorem range_getD_le (n j : Nat) : (List.range n).getD j 0 ≤ j := by
  rcases Nat.lt_or_ge j n with h | h
  · rw [List.getD_eq_getElem _ _ (by simpa using h)]
    simp [List.getElem_range]
  · rw [List.getD_eq_default _ _ (by simpa using h)]
    exact Nat.zero_le j

theorem levenshtein_core_le (s1 s2 : List Char) (h : s2.length ≤ s1.length) :
    levenshtein_core s1 s2 ≤ s1.length := by
  rw [levenshtein_core]
  by_cases h2 : s2.length = 0
  · rw [if_pos h2]
  · rw [if_neg h2]
    have hlen : (levLoop s2 s1 (List.range (s2.length + 1)) 0).length = s2.length + 1 :=
      levLoop_length s2 s1 _ 0 (by simp)
    have hne : levLoop s2 s1 (List.range (s2.length + 1)) 0 ≠ [] := by
      intro hnil; rw [hnil] at hlen; simp at hlen
    rw [getLastD_eq_getD _ _ hne, hlen]
    have hb := levLoop_getD_le s2 s1 (List.range (s2.length + 1)) 0
      (fun j => le_trans (range_getD_le (s2.length + 1) j) (le_max_right 0 j)) s2.length
    simp only [Nat.add_sub_cancel]
    omega

theorem levenshtein_distance_le (s1 s2 : List Char) :
    levenshtein_distance s1 s2 ≤ max s1.length s2.length := by
  rw [levenshtein_distance]
  rcases Nat.lt_or_ge s1.length s2.length with h | h
  · rw [if_pos h]
    exact le_trans (levenshtein_core_le s2 s1 (Nat.le_of_lt h)) (le_max_right _ _)
  · rw [if_neg (Nat.not_lt.mpr h)]
    exact le_trans (levenshtein_core_le s1 s2 h) (le_max_left _ _)

theorem string_similarity_bounds (s1 s2 : String) :
    0 ≤ string_similarity s1 s2 ∧ string_similarity s1 s2 ≤ 1 := by
  rw [string_similarity]
  split
  · norm_num
  · split
    · norm_num
    · split
      · norm_num
      · rename_i h0 h1 h2
        have hmax : 0 < max s1.length s2.length := Nat.pos_of_ne_zero h2
        have hmr : (0 : ℝ) < ((max s1.length s2.length : ℕ) : ℝ) := by exact_mod_cast hmax
        have hd : (levenshtein_distance s1.data s2.data : ℝ) ≤
            ((max s1.length s2.length : ℕ) : ℝ) := by
          exact_mod_cast levenshtein_distance_le s1.data s2.data
        have hdn : (0 : ℝ) ≤ (levenshtein_distance s1.data s2.data : ℝ) := by positivity
        constructor
        · have := (div_le_one hmr).mpr hd
          linarith
        · have : 0 ≤ (levenshtein_distance s1.data s2.data : ℝ) /
              ((max s1.length s2.length : ℕ) : ℝ) := div_nonneg hdn (le_of_lt hmr)
          linarith

theorem tf_nonneg (doc : List String) (k : String) : 0 ≤ tf doc k := by
  unfold tf; positivity

theorem tfidfVec_mul_nonneg (docs : List (List String)) (d1 d2 : List String) (k : String) :
    0 ≤ tfidfVec docs d1 k * tfidfVec docs d2 k := by
  unfold tfidfVec
  by_cases h1 : k ∈ d1
  · by_cases h2 : k ∈ d2
    · rw [if_pos h1, if_pos h2]
      have he : tf d1 k * idf docs k * (tf d2 k * idf docs k)
          = tf d1 k * tf d2 k * idf docs k ^ 2 := by ring
      rw [he]
      have ht1 := tf_nonneg d1 k
      have ht2 := tf_nonneg d2 k
      positivity
    · rw [if_neg h2, mul_zero]
  · rw [if_neg h1, zero_mul]

theorem sq_sum_extend {l : List String} (hl : l.Nodup) {S : Finset String} (v : String → ℝ)
    (hsub : l.toFinset ⊆ S) (hz : ∀ x ∈ S, x ∉ l.toFinset → v x = 0) :
    (l.map (fun k => v k * v k)).sum = ∑ k ∈ S, v k ^ 2 := by
  rw [← List.sum_toFinset _ hl]
  rw [show (∑ k ∈ l.toFinset, v k * v k) = ∑ k ∈ l.toFinset, v k ^ 2 from
    Finset.sum_congr rfl (fun k _ => by rw [pow_two])]
  exact Finset.sum_subset hsub (fun x hx hnx => by rw [hz x hx hnx]; ring)

theorem cosine_tfidf_bounds (docs : List (List String)) (d1 d2 : List String) :
    0 ≤ cosine_similarity d1.dedup d2.dedup (tfidfVec docs d1) (tfidfVec docs d2) ∧
    cosine_similarity d1.dedup d2.dedup (tfidfVec docs d1) (tfidfVec docs d2) ≤ 1 := by
  unfold cosine_similarity
  split
  · norm_num
  · split
    · norm_num
    · rename_i hA hn
      push_neg at hn
      obtain ⟨hn1, hn2⟩ := hn
      have hs1 : ((d1.dedup).map
          (fun k => tfidfVec docs d1 k * tfidfVec docs d1 k)).sum
          = ∑ k ∈ ((d1.dedup ++ d2.dedup).dedup).toFinset, tfidfVec docs d1 k ^ 2 := by
        apply sq_sum_extend (List.nodup_dedup d1)
        · intro x hx
          rw [List.mem_toFinset] at hx ⊢
          exact List.mem_dedup.mpr (List.mem_append_left _ hx)
        · intro x _ hnx
          rw [List.mem_toFinset, List.mem_dedup] at hnx
          exact if_neg hnx
      have hs2 : ((d2.dedup).map
          (fun k => tfidfVec docs d2 k * tfidfVec docs d2 k)).sum
          = ∑ k ∈ ((d1.dedup ++ d2.dedup).dedup).toFinset, tfidfVec docs d2 k ^ 2 := by
        apply sq_sum_extend (List.nodup_dedup d2)
        · intro x hx
          rw [List.mem_toFinset] at hx ⊢
          exact List.mem_dedup.mpr (List.mem_append_right _ hx)
        · intro x _ hnx
          rw [List.mem_toFinset, List.mem_dedup] at hnx
          exact if_neg hnx
      have hdot : ((d1.dedup ++ d2.dedup).dedup.map
          (fun k => tfidfVec docs d1 k * tfidfVec docs d2 k)).sum
          = ∑ k ∈ ((d1.dedup ++ d2.dedup).dedup).toFinset,
              tfidfVec docs d1 k * tfidfVec docs d2 k :=
        (List.sum_toFinset _ (List.nodup_dedup _)).symm
      rw [hs1] at hn1 ⊢
      rw [hs2] at hn2 ⊢
      rw [hdot]
      set S := ((d1.dedup ++ d2.dedup).dedup).toFinset
      set P := ∑ k ∈ S, tfidfVec docs d1 k ^ 2 with hP
      set Q := ∑ k ∈ S, tfidfVec docs d2 k ^ 2 with hQ
      have hdot0 : 0 ≤ ∑ k ∈ S, tfidfVec docs d1 k * tfidfVec docs d2 k :=
        Finset.sum_nonneg (fun k _ => tfidfVec_mul_nonneg docs d1 d2 k)
      have hP0 : 0 ≤ P := Finset.sum_nonneg (fun k _ => sq_nonneg _)
      have hQ0 : 0 ≤ Q := Finset.sum_nonneg (fun k _ => sq_nonneg _)
      have hCS : (∑ k ∈ S, tfidfVec docs d1 k * tfidfVec docs d2 k) ^ 2 ≤ P * Q :=
        Finset.sum_mul_sq_le_sq_mul_sq S _ _
      have hdotle : (∑ k ∈ S, tfidfVec docs d1 k * tfidfVec docs d2 k) ≤
          Real.sqrt P * Real.sqrt Q := by
        have h1 : (∑ k ∈ S, tfidfVec docs d1 k * tfidfVec docs d2 k)
            = Real.sqrt ((∑ k ∈ S, tfidfVec docs d1 k * tfidfVec docs d2 k) ^ 2) :=
          (Real.sqrt_sq hdot0).symm
        rw [h1, ← Real.sqrt_mul hP0]
        exact Real.sqrt_le_sqrt hCS
      have hsq1 : 0 < Real.sqrt P := lt_of_le_of_ne (Real.sqrt_nonneg P) (Ne.symm hn1)
      have hsq2 : 0 < Real.sqrt Q := lt_of_le_of_ne (Real.sqrt_nonneg Q) (Ne.symm hn2)
      have hprod : 0 < Real.sqrt P * Real.sqrt Q := mul_pos hsq1 hsq2
      constructor
      · exact div_nonneg hdot0 (le_of_lt hprod)
      · exact (div_le_one hprod).mpr hdotle

theorem simsList_mem_bounds {docs : List (List String)} {kw1 kw2 : String} {x : ℝ}
    (hx : x ∈ simsList docs kw1 kw2) : 0 ≤ x ∧ x ≤ 1 := by
  unfold simsList at hx
  rw [List.mem_flatMap] at hx
  obtain ⟨d1, _, hx⟩ := hx
  rw [List.mem_map] at hx
  obtain ⟨d2, _, hEq⟩ := hx
  rw [← hEq]
  exact cosine_tfidf_bounds docs d1 d2

theorem semantic_similarity_bounds (docs : List (List String)) (kw1 kw2 : String) :
    0 ≤ semantic_similarity docs kw1 kw2 ∧ semantic_similarity docs kw1 kw2 ≤ 1 := by
  unfold semantic_similarity
  split
  · norm_num
  · rename_i hne
    have hlen : 0 < ((simsList docs kw1 kw2).length : ℝ) := by
      have := List.length_pos.mpr hne
      exact_mod_cast this
    have hsum0 : 0 ≤ (simsList docs kw1 kw2).sum :=
      List.sum_nonneg (fun x hx => (simsList_mem_bounds hx).1)
    have hsumle : (simsList docs kw1 kw2).sum ≤ ((simsList docs kw1 kw2).length : ℝ) := by
      have h := List.sum_le_card_nsmul (simsList docs kw1 kw2) 1
        (fun x hx => (simsList_mem_bounds hx).2)
      rwa [nsmul_eq_mul, mul_one] at h
    constructor
    · exact div_nonneg hsum0 (le_of_lt hlen)
    · exact (div_le_one hlen).mpr hsumle

theorem cooccurrence_similarity_bounds (docs : List (List String)) (kw1 kw2 : String) :
    0 ≤ cooccurrence_similarity docs kw1 kw2 ∧ cooccurrence_similarity docs kw1 kw2 ≤ 1 := by
  unfold cooccurrence_similarity
  split
  · constructor
    · apply le_min
      · norm_num
      · apply div_nonneg
        · apply Real.log_nonneg
          have : (0 : ℝ) ≤ (coocCount docs kw1 kw2 : ℝ) := by positivity
          linarith
        · apply Real.log_nonneg; norm_num
    · exact min_le_left _ _
  · norm_num

/-- C1 (amended): for every corpus and every pair of distinct keywords, each
of the three component similarity signals lies in [0,1], the composite
weighted sum is nonnegative, and it is bounded by 1.1 (the sum of the
weights 0.5, 0.3, 0.3) rather than by 1. -/
theorem c1_similarity_bounds (docs : List (List String)) (kw1 kw2 : String)
    (hne : kw1 ≠ kw2) :
    (0 ≤ string_similarity kw1 kw2 ∧ string_similarity kw1 kw2 ≤ 1) ∧
    (0 ≤ semantic_similarity docs kw1 kw2 ∧ semantic_similarity docs kw1 kw2 ≤ 1) ∧
    (0 ≤ cooccurrence_similarity docs kw1 kw2 ∧ cooccurrence_similarity docs kw1 kw2 ≤ 1) ∧
    (0 ≤ calculate_keyword_similarity docs kw1 kw2 ∧
      calculate_keyword_similarity docs kw1 kw2 ≤ 1.1) := by
  have hs := string_similarity_bounds kw1 kw2
  have hm := semantic_similarity_bounds docs kw1 kw2
  have hc := cooccurrence_similarity_bounds docs kw1 kw2
  refine ⟨hs, hm, hc, ?_, ?_⟩
  · unfold calculate_keyword_similarity COOCCURRENCE_WEIGHT
    nlinarith [hs.1, hm.1, hc.1]
  · unfold calculate_keyword_similarity COOCCURRENCE_WEIGHT
    nlinarith [hs.2, hm.2, hc.2, hs.1, hm.1, hc.1]

theorem c1_similarity_bounds_witness :
    (0 ≤ string_similarity "ab" "cd" ∧ string_similarity "ab" "cd" ≤ 1) ∧
    (0 ≤ semantic_similarity [] "ab" "cd" ∧ semantic_similarity [] "ab" "cd" ≤ 1) ∧
    (0 ≤ cooccurrence_similarity [] "ab" "cd" ∧ cooccurrence_similarity [] "ab" "cd" ≤ 1) ∧
    (0 ≤ calculate_keyword_similarity [] "ab" "cd" ∧
      calculate_keyword_similarity [] "ab" "cd" ≤ 1.1) :=
  c1_similarity_bounds [] "ab" "cd" (by decide)

/-! ### A corpus on which the composite similarity exceeds 1 -/

/-- One document with two almost-identical keywords. -/
def cDoc : List String := ["aaaaaaaaaa", "aaaaaaaaab"]

/-- The counterexample corpus: nine copies of that document. -/
def cDocs : List (List String) := List.replicate 9 cDoc

theorem cDoc_dedup : cDoc.dedup = ["aaaaaaaaaa", "aaaaaaaaab"] := by decide

theorem cDocs_allKeys :
    (cDoc.dedup ++ cDoc.dedup).dedup = ["aaaaaaaaaa", "aaaaaaaaab"] := by decide

theorem cDocs_tfidf_a : tfidfVec cDocs cDoc "aaaaaaaaaa" = Real.log (9 / 10) := by
  unfold tfidfVec tf idf
  rw [if_pos (show ("aaaaaaaaaa" : String) ∈ cDoc by decide)]
  rw [show cDoc.count "aaaaaaaaaa" = 1 by decide,
    show maxCount cDoc = 1 by decide,
    show docFreq cDocs "aaaaaaaaaa" = 9 by decide,
    show cDocs.length = 9 by decide]
  push_cast
  norm_num

theorem cDocs_tfidf_b : tfidfVec cDocs cDoc "aaaaaaaaab" = Real.log (9 / 10) := by
  unfold tfidfVec tf idf
  rw [if_pos (show ("aaaaaaaaab" : String) ∈ cDoc by decide)]
  rw [show cDoc.count "aaaaaaaaab" = 1 by decide,
    show maxCount cDoc = 1 by decide,
    show docFreq cDocs "aaaaaaaaab" = 9 by decide,
    show cDocs.length = 9 by decide]
  push_cast
  norm_num

theorem cDocs_sqsum :
    ((cDoc.dedup).map (fun k => tfidfVec cDocs cDoc k * tfidfVec cDocs cDoc k)).sum
      = 2 * Real.log (9 / 10) ^ 2 := by
  rw [cDoc_dedup]
  simp only [List.map_cons, List.map_nil, List.sum_cons, List.sum_nil,
    cDocs_tfidf_a, cDocs_tfidf_b]
  ring

theorem cDocs_dotsum :
    ((cDoc.dedup ++ cDoc.dedup).dedup.map
      (fun k => tfidfVec cDocs cDoc k * tfidfVec cDocs cDoc k)).sum
      = 2 * Real.log (9 / 10) ^ 2 := by
  rw [cDocs_allKeys]
  simp only [List.map_cons, List.map_nil, List.sum_cons, List.sum_nil,
    cDocs_tfidf_a, cDocs_tfidf_b]
  ring

theorem log_nine_tenths_ne_zero : Real.log (9 / 10) ≠ 0 := by
  intro h
  rcases Real.log_eq_zero.mp h with h | h | h <;> norm_num at h

theorem cDocs_cosine :
    cosine_similarity cDoc.dedup cDoc.dedup (tfidfVec cDocs cDoc) (tfidfVec cDocs cDoc)
      = 1 := by
  unfold cosine_similarity
  rw [if_neg (by rw [cDocs_allKeys]; simp)]
  have hsq : 0 < Real.log (9 / 10) ^ 2 := by
    rw [sq]; exact mul_self_pos.mpr log_nine_tenths_ne_zero
  have hSpos : 0 < 2 * Real.log (9 / 10) ^ 2 := by linarith
  rw [if_neg]
  · rw [cDocs_dotsum, cDocs_sqsum, Real.mul_self_sqrt (le_of_lt hSpos)]
    exact div_self (ne_of_gt hSpos)
  · rw [cDocs_sqsum]
    push_neg
    constructor <;>
      (intro h; exact absurd (Real.sqrt_eq_zero'.mp h) (not_le.mpr hSpos))

theorem flatten_replicate_replicate (m : Nat) (c : ℝ) :
    ∀ n, (List.replicate n (List.replicate m c)).flatten = List.replicate (n * m) c
  | 0 => by simp
  | n + 1 => by
    rw [List.replicate_succ, List.flatten_cons, flatten_replicate_replicate m c n,
      show (n + 1) * m = m + n * m by ring, List.replicate_add]

theorem cDocs_simsList :
    simsList cDocs "aaaaaaaaaa" "aaaaaaaaab" = List.replicate 81 (1 : ℝ) := by
  unfold simsList
  rw [show cDocs.filter (fun d => decide (("aaaaaaaaaa" : String) ∈ d)) = cDocs by decide]
  rw [show cDocs.filter (fun d => decide (("aaaaaaaaab" : String) ∈ d)) = cDocs by decide]
  show (List.replicate 9 cDoc).flatMap (fun d1 => (List.replicate 9 cDoc).map
    (fun d2 => cosine_similarity d1.dedup d2.dedup (tfidfVec cDocs d1) (tfidfVec cDocs d2)))
    = List.replicate 81 1
  rw [List.flatMap_replicate, List.map_replicate, cDocs_cosine,
    flatten_replicate_replicate]

theorem cDocs_semantic : semantic_similarity cDocs "aaaaaaaaaa" "aaaaaaaaab" = 1 := by
  unfold semantic_similarity
  rw [cDocs_simsList]
  rw [if_neg (by simp)]
  rw [List.sum_replicate, List.length_replicate]
  norm_num

set_option maxRecDepth 4000 in
theorem cDocs_string : string_similarity "aaaaaaaaaa" "aaaaaaaaab" = 9 / 10 := by
  unfold string_similarity
  rw [if_neg (by decide), if_neg (by decide), if_neg (by decide)]
  rw [show levenshtein_distance ("aaaaaaaaaa" : String).data ("aaaaaaaaab" : String).data
      = 1 by decide]
  rw [show max ("aaaaaaaaaa" : String).length ("aaaaaaaaab" : String).length = 10
      from by decide]
  norm_num

theorem log_ten_ne_zero : Real.log 10 ≠ 0 := by
  intro h
  rcases Real.log_eq_zero.mp h with h | h | h <;> norm_num at h

theorem cDocs_cooc : cooccurrence_similarity cDocs "aaaaaaaaaa" "aaaaaaaaab" = 1 := by
  unfold cooccurrence_similarity
  rw [if_pos ⟨by decide,
    by rw [show coocCount cDocs "aaaaaaaaaa" "aaaaaaaaab" = 9 by decide]; norm_num⟩]
  rw [show coocCount cDocs "aaaaaaaaaa" "aaaaaaaaab" = 9 by decide]
  rw [show ((9 : ℕ) : ℝ) + 1 = 10 by norm_num]
  rw [div_self log_ten_ne_zero]
  exact min_self 1

/-- C1 counterexample: over a nine-document corpus in which the two distinct
keywords "aaaaaaaaaa" and "aaaaaaaaab" always occur together, the composite
score is 0.5*0.9 + 0.3*1 + 0.3*1 = 1.05 > 1, so the composite does not lie
in [0,1]. -/
theorem c1_counterexample :
    ("aaaaaaaaaa" : String) ≠ "aaaaaaaaab" ∧
    1 < calculate_keyword_similarity cDocs "aaaaaaaaaa" "aaaaaaaaab" := by
  refine ⟨by decide, ?_⟩
  unfold calculate_keyword_similarity COOCCURRENCE_WEIGHT
  rw [cDocs_string, cDocs_semantic, cDocs_cooc]
  norm_num

/-! ## Cluster naming: keyword_classifier.py, hierarchical_clustering
(lines 347-355) -/

/-- The sort key `(len(x), keywords.count(x))` of the representative choice
`max(keywords, key=lambda x: (len(x), keywords.count(x)))`. -/
def repKey (keywords : List String) (x : String) : Nat × Nat :=
  (x.length, keywords.count x)

/-- Strict lexicographic order on Nat pairs (Python tuple comparison). -/
def pairLt (a b : Nat × Nat) : Prop := a.1 < b.1 ∨ (a.1 = b.1 ∧ a.2 < b.2)

instance (a b : Nat × Nat) : Decidable (pairLt a b) := by unfold pairLt; infer_instance

/-- Python `max(l, key=keyFn)`: the first element attaining the maximum key
(later elements replace the current best only when strictly greater). -/
def pyMax (keyFn : String → Nat × Nat) : List String → Option String
  | [] => none
  | x :: xs =>
    some (xs.foldl (fun best y => if pairLt (keyFn best) (keyFn y) then y else best) x)

/-- MIN_CLUSTER_SIZE = 2 (keyword_classifier.py line 52). -/
def MIN_CLUSTER_SIZE : Nat := 2

/-- Code-point lexicographic comparison of strings (Python string `<=`). -/
def charListLe : List Char → List Char → Bool
  | [], _ => true
  | _ :: _, [] => false
  | c :: cs, d :: ds => if c < d then true else if d < c then false else charListLe cs ds

/-- Python `sorted(set(keywords))`: distinct members in ascending order
(insertion sort; on distinct elements this equals Python sorted). -/
def insertSorted (x : String) : List String → List String
  | [] => [x]
  | y :: ys => if charListLe x.data y.data then x :: y :: ys else y :: insertSorted x ys

def sortedSet (keywords : List String) : List String :=
  keywords.dedup.foldr insertSorted []

/-- Lines 347-355 of hierarchical_clustering: keep the clusters of size at
least MIN_CLUSTER_SIZE, name each one by
`max(keywords, key=lambda x: (len(x), keywords.count(x)))`, and store the
sorted set of members. -/
def cluster_categories (clusters : List (List String)) : List (String × List String) :=
  clusters.filterMap fun ks =>
    if MIN_CLUSTER_SIZE ≤ ks.length then
      (pyMax (repKey ks) ks).map (fun nm => (nm, sortedSet ks))
    else none

theorem pyMax_fold_spec (keyFn : String → Nat × Nat) :
    ∀ (xs : List String) (b : String),
      (xs.foldl (fun best y => if pairLt (keyFn best) (keyFn y) then y else best) b)
          ∈ b :: xs ∧
      (∀ y ∈ xs, ¬ pairLt
        (keyFn (xs.foldl (fun best y => if pairLt (keyFn best) (keyFn y) then y else best) b))
        (keyFn y)) ∧
      ¬ pairLt
        (keyFn (xs.foldl (fun best y => if pairLt (keyFn best) (keyFn y) then y else best) b))
        (keyFn b)
  | [], b => by
    simp only [List.foldl_nil]
    refine ⟨List.mem_cons_self _ _, by simp, ?_⟩
    unfold pairLt; omega
  | y :: ys, b => by
    obtain ⟨hmem, hall, hbase⟩ :=
      pyMax_fold_spec keyFn ys (if pairLt (keyFn b) (keyFn y) then y else b)
    rw [List.foldl_cons]
    refine ⟨?_, ?_, ?_⟩
    · rcases List.mem_cons.mp hmem with h | h
      · rw [h]
        split
        · exact List.mem_cons_of_mem _ (List.mem_cons_self _ _)
        · exact List.mem_cons_self _ _
      · exact List.mem_cons_of_mem _ (List.mem_cons_of_mem _ h)
    · intro z hz
      rcases List.mem_cons.mp hz with h | h
      · subst h
        by_cases hc : pairLt (keyFn b) (keyFn z)
        · rw [if_pos hc] at hbase ⊢
          exact hbase
        · rw [if_neg hc] at hbase ⊢
          unfold pairLt at hbase hc ⊢
          omega
      · exact hall z h
    · by_cases hc : pairLt (keyFn b) (keyFn y)
      · rw [if_pos hc] at hbase ⊢
        unfold pairLt at hbase hc ⊢
        omega
      · rw [if_neg hc] at hbase ⊢
        exact hbase

/-- C9: for every cluster that survives the minimum-size filter, the chosen
representative is a member whose (length, in-cluster occurrence count) pair
is lexicographically maximal: longest string, and among the members of
maximal length one of maximal occurrence count. -/
theorem c9_representative_choice (clusters : List (List String)) (nm : String)
    (mems : List String) (h : (nm, mems) ∈ cluster_categories clusters) :
    ∃ ks ∈ clusters, MIN_CLUSTER_SIZE ≤ ks.length ∧ nm ∈ ks ∧ mems = sortedSet ks ∧
      ∀ y ∈ ks, y.length < nm.length ∨
        (y.length = nm.length ∧ ks.count y ≤ ks.count nm) := by
  unfold cluster_categories at h
  rw [List.mem_filterMap] at h
  obtain ⟨ks, hks, hsome⟩ := h
  refine ⟨ks, hks, ?_⟩
  by_cases hsz : MIN_CLUSTER_SIZE ≤ ks.length
  · rw [if_pos hsz] at hsome
    cases ks with
    | nil => simp [MIN_CLUSTER_SIZE] at hsz
    | cons x xs =>
      rw [pyMax] at hsome
      simp only [Option.map_some', Option.some.injEq, Prod.mk.injEq] at hsome
      obtain ⟨hnm, hmems⟩ := hsome
      obtain ⟨hmem, hall, hbase⟩ := pyMax_fold_spec (repKey (x :: xs)) xs x
      rw [hnm] at hmem hall hbase
      refine ⟨hsz, hmem, hmems.symm, ?_⟩
      intro y hy
      have hnlt : ¬ pairLt (repKey (x :: xs) nm) (repKey (x :: xs) y) := by
        rcases List.mem_cons.mp hy with h | h
        · rw [h]; exact hbase
        · exact hall y h
      have h1 : ¬(nm.length < y.length ∨
          (nm.length = y.length ∧
            List.count nm (x :: xs) < List.count y (x :: xs))) := hnlt
      omega
  · rw [if_neg hsz] at hsome
    exact absurd hsome (by simp)

theorem c9_representative_choice_witness :
    ∃ ks ∈ [["ab", "cde", "fg"]], MIN_CLUSTER_SIZE ≤ ks.length ∧ "cde" ∈ ks ∧
      ["ab", "cde", "fg"] = sortedSet ks ∧
      ∀ y ∈ ks, y.length < ("cde" : String).length ∨
        (y.length = ("cde" : String).length ∧ ks.count y ≤ ks.count "cde") :=
  c9_representative_choice [["ab", "cde", "fg"]] "cde" ["ab", "cde", "fg"] (by decide)

/-! ## Multi-label assignment: keyword_classifier.py, assign_multi_category
(lines 357-387) -/

/-- First loop of assign_multi_category: every keyword of every surviving
cluster is assigned that cluster's category name. -/
def initAssign (categories : List (String × List String)) : String → Finset String :=
  categories.foldl
    (fun a p => fun kw => if kw ∈ p.2 then insert p.1 (a kw) else a kw)
    (fun _ => ∅)

/-- One iteration of the second loop of assign_multi_category: the union of
the categories currently attached to the document's keywords is added to
every keyword of the document. -/
def docStep (a : String → Finset String) (doc : List String) : String → Finset String :=
  fun kw => if kw ∈ doc then a kw ∪ doc.foldl (fun s k => s ∪ a k) ∅ else a kw

/-- keyword_classifier.assign_multi_category, as the final
keyword-to-category-set assignment (the source then sorts each set into a
list). -/
def assign_multi_category (keywords_list : List (List String))
    (categories : List (String × List String)) : String → Finset String :=
  keywords_list.foldl docStep (initAssign categories)

theorem docStep_subset (a : String → Finset String) (doc : List String) (kw : String) :
    a kw ⊆ docStep a doc kw := by
  unfold docStep
  split
  · exact Finset.subset_union_left
  · exact subset_rfl

theorem foldl_docStep_subset : ∀ (ds : List (List String)) (a : String → Finset String)
    (kw : String), a kw ⊆ (ds.foldl docStep a) kw
  | [], _, _ => subset_rfl
  | d :: ds, a, kw => by
    rw [List.foldl_cons]
    exact (docStep_subset a d kw).trans (foldl_docStep_subset ds _ kw)

/-- C10: the multi-label expansion only ever adds labels: the final
assignment of every keyword contains its base-cluster categories, any
category attached after any prefix of the document pass survives to the end,
and a keyword belonging to no cluster can end with a non-empty label set
(concrete instance: keyword "x" is in no cluster but co-occurs with "a"). -/
theorem c10_multilabel_expansion :
    (∀ (docs : List (List String)) (cats : List (String × List String)) (kw : String),
      initAssign cats kw ⊆ assign_multi_category docs cats kw) ∧
    (∀ (docs1 docs2 : List (List String)) (cats : List (String × List String))
      (kw : String),
      assign_multi_category docs1 cats kw ⊆
        assign_multi_category (docs1 ++ docs2) cats kw) ∧
    ((∀ p ∈ [("c", ["a", "b"])], "x" ∉ p.2) ∧
      assign_multi_category [["a", "x"]] [("c", ["a", "b"])] "x" = {"c"}) := by
  refine ⟨?_, ?_, ?_, ?_⟩
  · intro docs cats kw
    exact foldl_docStep_subset docs (initAssign cats) kw
  · intro docs1 docs2 cats kw
    unfold assign_multi_category
    rw [List.foldl_append]
    exact foldl_docStep_subset docs2 _ kw
  · decide
  · decide

theorem c10_multilabel_expansion_witness :
    initAssign [("c", ["a", "b"])] "a"
      ⊆ assign_multi_category [["a", "x"]] [("c", ["a", "b"])] "a" ∧
    "x" ∉ (("c", ["a", "b"]) : String × List String).2 :=
  ⟨c10_multilabel_expansion.1 [["a", "x"]] [("c", ["a", "b"])] "a",
   c10_multilabel_expansion.2.2.1 ("c", ["a", "b"]) (by decide)⟩

/-! ## Collection path resolver: organize.py, ensure_collection_path
(lines 155-215), find_collection_by_path (120-153),
refresh_cache_from_zotero (93-116), move_item_to_collection (289-319) -/

/-- One cache entry: the `{key, parent}` record stored per collection name. -/
structure Entry where
  key : String
  parent : Option String
deriving DecidableEq, Repr

/-- collections_cache.json: name → entry, with Python-dict semantics
(first-match lookup, in-place overwrite on assignment). -/
abbrev Cache := List (String × Entry)

/-- Python dict lookup `cache.get(name)` / `cache[name]`. -/
def cacheFind : Cache → String → Option Entry
  | [], _ => none
  | (m, e) :: rest, n => if n = m then some e else cacheFind rest n

/-- Python dict assignment `cache[name] = e`. -/
def upsert : Cache → String → Entry → Cache
  | [], n, e => [(n, e)]
  | (m, e0) :: rest, n, e =>
    if m = n then (n, e) :: rest else (m, e0) :: upsert rest n e

/-- One remote collection as returned by `zot.collections()`. -/
structure RemoteColl where
  key : String
  name : String
  parent : Option String
deriving DecidableEq, Repr

/-- Observable remote-API state: the folder listing, the fresh-key counter,
and the logs of folder creations, full cache refreshes, cache persists
(save_cache) and warnings printed. -/
structure ZState where
  remote : List RemoteColl
  nextId : Nat
  creations : List (String × Option String)
  refreshes : Nat
  saves : Nat
  warnings : List String
deriving DecidableEq, Repr

/-- Keys handed out by `zot.create_collections` in the model. -/
def freshKey (n : Nat) : String := "new" ++ toString n

/-- `zot.create_collections([{name, parentCollection}])` in live mode,
modelled as always succeeding, followed by the cache update and save_cache
of ensure_collection_path. -/
def createCollection (part : String) (parentKey : Option String) (st : ZState) :
    String × ZState :=
  (freshKey st.nextId,
    { st with
      remote := st.remote ++ [⟨freshKey st.nextId, part, parentKey⟩]
      nextId := st.nextId + 1
      creations := st.creations ++ [(part, parentKey)]
      saves := st.saves + 1 })

/-- The found_key computation of ensure_collection_path: a cache hit whose
recorded parent differs from the current parent (when there is one —
`if parent_key and …`) counts as not found. -/
def ensureFound (part : String) (parentKey : Option String) (cache : Cache) :
    Option String :=
  match cacheFind cache part with
  | some e => if parentKey ≠ none ∧ e.parent ≠ parentKey then none else some e.key
  | none => none

/-- One segment of organize.ensure_collection_path: a miss (or mismatched
parent) creates the folder (live) or synthesizes the
`fake_{part}_{parent or root}` placeholder (dry run, touching nothing). -/
def ensureStep (dry : Bool) (part : String) (parentKey : Option String)
    (cache : Cache) (st : ZState) : String × Cache × ZState :=
  match ensureFound part parentKey cache with
  | some k => (k, cache, st)
  | none =>
    if dry then ("fake_" ++ part ++ "_" ++ parentKey.getD "root", cache, st)
    else
      ((createCollection part parentKey st).1,
        upsert cache part
          ⟨(createCollection part parentKey st).1, parentKey⟩,
        (createCollection part parentKey st).2)

/-- The `for part in parts` loop of ensure_collection_path. -/
def ensureLoop (dry : Bool) : List String → Option String → Cache → ZState →
    Option String × Cache × ZState
  | [], parentKey, cache, st => (parentKey, cache, st)
  | part :: rest, parentKey, cache, st =>
    ensureLoop dry rest (some (ensureStep dry part parentKey cache st).1)
      (ensureStep dry part parentKey cache st).2.1
      (ensureStep dry part parentKey cache st).2.2

/-- `[p.strip() for p in path.split('/') if p.strip()]`. -/
def splitPath (path : String) : List String :=
  ((splitOnChar '/' path.data).map (fun p => String.mk (stripWs p))).filter (· ≠ "")

/-- organize.ensure_collection_path. -/
def ensure_collection_path (dry : Bool) (path : String) (cache : Cache)
    (st : ZState) : Option String × Cache × ZState :=
  if path = "" ∨ path = "Unclassified" then (none, cache, st)
  else ensureLoop dry (splitPath path) none cache st

/-- organize.refresh_cache_from_zotero: rebuild the cache from the remote
listing (later same-name collections overwrite earlier ones) and save it. -/
def refresh_cache_from_zotero (st : ZState) : Cache × ZState :=
  (st.remote.foldl (fun c r => upsert c r.name ⟨r.key, r.parent⟩) [],
    { st with refreshes := st.refreshes + 1, saves := st.saves + 1 })

/-- Result of find_collection_by_path: a key (none when a segment is absent
even after the refresh), or the KeyError Python raises when the previous
segment is missing from the refreshed cache. -/
inductive FindRes where
  | done (key : Option String) (cache : Cache) (st : ZState)
  | keyError (st : ZState)
deriving DecidableEq, Repr

/-- The loop of organize.find_collection_by_path: prevName is parts[i-1]
(none at the first segment), the third argument the current_parent found so
far; on a cache miss the cache is refreshed once and the lookup retried; a
hit with a parent different from the previous segment's key warns (the
segment name is appended to the warning log) and proceeds with the cached
entry. -/
def findLoop : List String → Option String → Option String → Cache → ZState → FindRes
  | [], _, lastKey, cache, st => .done lastKey cache st
  | part :: rest, prevName, _, cache, st =>
    match cacheFind cache part with
    | some e =>
      match prevName with
      | none => findLoop rest (some part) (some e.key) cache st
      | some pn =>
        match cacheFind cache pn with
        | none => .keyError st
        | some pe =>
          if e.parent ≠ some pe.key then
            findLoop rest (some part) (some e.key) cache
              { st with warnings := st.warnings ++ [part] }
          else findLoop rest (some part) (some e.key) cache st
    | none =>
      match cacheFind (refresh_cache_from_zotero st).1 part with
      | some e =>
        match prevName with
        | none =>
          findLoop rest (some part) (some e.key) (refresh_cache_from_zotero st).1
            (refresh_cache_from_zotero st).2
        | some pn =>
          match cacheFind (refresh_cache_from_zotero st).1 pn with
          | none => .keyError (refresh_cache_from_zotero st).2
          | some pe =>
            if e.parent ≠ some pe.key then
              findLoop rest (some part) (some e.key) (refresh_cache_from_zotero st).1
                { (refresh_cache_from_zotero st).2 with
                  warnings := (refresh_cache_from_zotero st).2.warnings ++ [part] }
            else
              findLoop rest (some part) (some e.key) (refresh_cache_from_zotero st).1
                (refresh_cache_from_zotero st).2
      | none => .done none (refresh_cache_from_zotero st).1 (refresh_cache_from_zotero st).2

/-- organize.find_collection_by_path. -/
def find_collection_by_path (path : String) (cache : Cache) (st : ZState) : FindRes :=
  if path = "" then .done none cache st
  else if splitPath path = [] then .done none cache st
  else findLoop (splitPath path) none none cache st

/-- Remote side effects of organize.move_item_to_collection. -/
inductive MoveOp where
  | addToCollection (collKey : String)
  | updateItemTags
deriving DecidableEq, Repr

def AUTO_TAG_NAME : String := "auto_organized"

/-- organize.move_item_to_collection, as the list of remote operations it
performs: nothing for a falsy or fake_-prefixed target key or in dry-run
mode; otherwise add-to-collection unless already present, then the
auto_organized tag update unless already tagged. -/
def move_item_to_collection (dry : Bool) (itemCollections itemTags : List String)
    (targetKey : Option String) : List MoveOp :=
  match targetKey with
  | none => []
  | some k =>
    if k = "" then []
    else if "fake_".data.isPrefixOf k.data then []
    else if dry then []
    else if k ∈ itemCollections then []
    else
      MoveOp.addToCollection k ::
        (if AUTO_TAG_NAME ∈ itemTags then [] else [MoveOp.updateItemTags])

/-- The filter in organizer.main (lines 272-280): a resolved key is queued
for add_to_collection only when truthy and not "fake"-prefixed. -/
def keysToAdd (k1 k2 : Option String) : List String :=
  (match k1 with
   | some k => if k ≠ "" ∧ ¬ ("fake".data.isPrefixOf k.data) then [k] else []
   | none => []) ++
  (match k2 with
   | some k => if k ≠ "" ∧ ¬ ("fake".data.isPrefixOf k.data) then [k] else []
   | none => [])

/-! ### Properties of the resolver -/

/-- The initial model state: empty remote store, no operations logged. -/
def zInit : ZState := ⟨[], 0, [], 0, 0, []⟩

/-- The state component of a find_collection_by_path outcome. -/
def FindRes.state : FindRes → ZState
  | .done _ _ st => st
  | .keyError st => st

theorem cacheFind_upsert (c : Cache) (n : String) (e : Entry) (m : String) :
    cacheFind (upsert c n e) m = if m = n then some e else cacheFind c m := by
  induction c with
  | nil => by_cases h : m = n <;> simp [upsert, cacheFind, h]
  | cons p rest ih =>
    obtain ⟨q, e0⟩ := p
    by_cases hq : q = n
    · subst hq
      by_cases h : m = q <;> simp [upsert, cacheFind, h]
    · by_cases h : m = q
      · subst h
        simp [upsert, cacheFind, hq]
      · simp [upsert, cacheFind, hq, h, ih]

theorem ensureStep_found {part : String} {pk : Option String} {cache : Cache}
    {k : String} (st : ZState) (hf : ensureFound part pk cache = some k) :
    ∀ dry, ensureStep dry part pk cache st = (k, cache, st) := by
  intro dry
  unfold ensureStep
  rw [hf]

theorem ensureStep_notfound_live {part : String} {pk : Option String} {cache : Cache}
    (st : ZState) (hf : ensureFound part pk cache = none) :
    ensureStep false part pk cache st
      = ((createCollection part pk st).1,
         upsert cache part ⟨(createCollection part pk st).1, pk⟩,
         (createCollection part pk st).2) := by
  unfold ensureStep
  rw [hf]
  simp

theorem ensureStep_notfound_dry {part : String} {pk : Option String} {cache : Cache}
    (st : ZState) (hf : ensureFound part pk cache = none) :
    ensureStep true part pk cache st
      = ("fake_" ++ part ++ "_" ++ pk.getD "root", cache, st) := by
  unfold ensureStep
  rw [hf]
  simp

theorem ensureStep_cacheFind_ne (dry : Bool) (part : String) (pk : Option String)
    (cache : Cache) (st : ZState) {name : String} (h : name ≠ part) :
    cacheFind (ensureStep dry part pk cache st).2.1 name = cacheFind cache name := by
  cases hf : ensureFound part pk cache with
  | some k => rw [ensureStep_found st hf dry]
  | none =>
    cases dry with
    | true => rw [ensureStep_notfound_dry st hf]
    | false =>
      rw [ensureStep_notfound_live st hf]
      show cacheFind (upsert cache part _) name = cacheFind cache name
      rw [cacheFind_upsert, if_neg h]

theorem ensureLoop_cacheFind_notin (dry : Bool) :
    ∀ (parts : List String) (pk : Option String) (cache : Cache) (st : ZState)
      {name : String}, name ∉ parts →
      cacheFind (ensureLoop dry parts pk cache st).2.1 name = cacheFind cache name
  | [], _, _, _, _, _ => rfl
  | part :: rest, pk, cache, st, name, h => by
    rw [ensureLoop]
    rw [ensureLoop_cacheFind_notin dry rest _ _ _
      (fun hr => h (List.mem_cons_of_mem _ hr))]
    exact ensureStep_cacheFind_ne dry part pk cache st
      (fun he => h (he ▸ List.mem_cons_self _ _))

theorem ensureLoop_idem_live :
    ∀ (parts : List String) (pk : Option String) (cache : Cache) (st st' : ZState),
      parts.Nodup →
      ensureLoop false parts pk ((ensureLoop false parts pk cache st).2.1) st'
        = ((ensureLoop false parts pk cache st).1,
           (ensureLoop false parts pk cache st).2.1, st')
  | [], pk, cache, st, st', _ => rfl
  | part :: rest, pk, cache, st, st', hnd => by
    have hpart : part ∉ rest := (List.nodup_cons.mp hnd).1
    have hrest : rest.Nodup := (List.nodup_cons.mp hnd).2
    cases hf : ensureFound part pk cache with
    | some k =>
      have hfirst : ensureLoop false (part :: rest) pk cache st
          = ensureLoop false rest (some k) cache st := by
        rw [ensureLoop, ensureStep_found st hf false]
      rw [hfirst]
      have hc2find : cacheFind ((ensureLoop false rest (some k) cache st).2.1) part
          = cacheFind cache part :=
        ensureLoop_cacheFind_notin false rest (some k) cache st hpart
      have hf2 : ensureFound part pk ((ensureLoop false rest (some k) cache st).2.1)
          = some k := by
        unfold ensureFound at hf ⊢
        rw [hc2find]
        exact hf
      rw [ensureLoop, ensureStep_found st' hf2 false]
      exact ensureLoop_idem_live rest (some k) cache st st' hrest
    | none =>
      have hfirst : ensureLoop false (part :: rest) pk cache st
          = ensureLoop false rest (some (createCollection part pk st).1)
              (upsert cache part ⟨(createCollection part pk st).1, pk⟩)
              (createCollection part pk st).2 := by
        rw [ensureLoop, ensureStep_notfound_live st hf]
      rw [hfirst]
      have hc2find : cacheFind ((ensureLoop false rest
            (some (createCollection part pk st).1)
            (upsert cache part ⟨(createCollection part pk st).1, pk⟩)
            (createCollection part pk st).2).2.1) part
          = some ⟨(createCollection part pk st).1, pk⟩ := by
        rw [ensureLoop_cacheFind_notin false rest _ _ _ hpart]
        rw [cacheFind_upsert, if_pos rfl]
      have hf2 : ensureFound part pk ((ensureLoop false rest
            (some (createCollection part pk st).1)
            (upsert cache part ⟨(createCollection part pk st).1, pk⟩)
            (createCollection part pk st).2).2.1)
          = some (createCollection part pk st).1 := by
        unfold ensureFound
        rw [hc2find]
        show (if pk ≠ none ∧ pk ≠ pk then none else some (createCollection part pk st).1)
            = some (createCollection part pk st).1
        rw [if_neg (fun hand => hand.2 rfl)]
      rw [ensureLoop, ensureStep_found st' hf2 false]
      exact ensureLoop_idem_live rest (some (createCollection part pk st).1)
        (upsert cache part ⟨(createCollection part pk st).1, pk⟩)
        (createCollection part pk st).2 st' hrest

/-- C5 (amended): in live mode, resolving a path whose segment names are
pairwise distinct a second time, from the cache produced by a successful
first resolution and with no intervening remote or cache change, returns
the same identifier, leaves the cache unchanged, and touches no state
(in particular performs zero folder-creation calls). The restriction to
distinct segment names is necessary: see the counterexample. -/
theorem c5_idempotent_resolution (path : String) (cache : Cache) (st st' : ZState)
    (k : String) (hnd : (splitPath path).Nodup)
    (h1 : (ensure_collection_path false path cache st).1 = some k) :
    ensure_collection_path false path
      ((ensure_collection_path false path cache st).2.1) st'
      = (some k, (ensure_collection_path false path cache st).2.1, st') := by
  unfold ensure_collection_path at h1 ⊢
  by_cases hp : path = "" ∨ path = "Unclassified"
  · rw [if_pos hp] at h1
    exact absurd h1 (by simp)
  · simp only [if_neg hp] at h1 ⊢
    rw [ensureLoop_idem_live (splitPath path) none cache st st' hnd, h1]

theorem c5_idempotent_resolution_witness :
    ensure_collection_path false "A/B"
      ((ensure_collection_path false "A/B" [] zInit).2.1) zInit
      = (some "new1", (ensure_collection_path false "A/B" [] zInit).2.1, zInit) :=
  c5_idempotent_resolution "A/B" [] zInit zInit "new1" (by decide) (by decide)

/-- C5 counterexample: resolving "A/A" (a repeated segment name) from the
empty cache in live mode: the second resolution returns a different
identifier and performs one more remote creation call. -/
theorem c5_counterexample :
    (ensure_collection_path false "A/A"
        ((ensure_collection_path false "A/A" [] zInit).2.1)
        ((ensure_collection_path false "A/A" [] zInit).2.2)).1
      ≠ (ensure_collection_path false "A/A" [] zInit).1 ∧
    ((ensure_collection_path false "A/A"
        ((ensure_collection_path false "A/A" [] zInit).2.1)
        ((ensure_collection_path false "A/A" [] zInit).2.2)).2.2).creations.length
      = ((ensure_collection_path false "A/A" [] zInit).2.2).creations.length + 1 := by
  decide

theorem findLoop_creations : ∀ (parts : List String) (pn lk : Option String)
    (cache : Cache) (st : ZState),
    ((findLoop parts pn lk cache st).state).creations = st.creations
  | [], _, _, _, _ => rfl
  | part :: rest, pn, lk, cache, st => by
    simp only [findLoop]
    split
    · split
      · exact findLoop_creations rest _ _ _ _
      · split
        · rfl
        · split
          · exact findLoop_creations rest _ _ _ _
          · exact findLoop_creations rest _ _ _ _
    · split
      · split
        · exact findLoop_creations rest _ _ _ _
        · split
          · rfl
          · split
            · exact findLoop_creations rest _ _ _ _
            · exact findLoop_creations rest _ _ _ _
      · rfl

theorem ensureFound_collision {part : String} {pk : Option String} {cache : Cache}
    {e : Entry} (h : cacheFind cache part = some e) (hp : pk ≠ none)
    (hne : e.parent ≠ pk) : ensureFound part pk cache = none := by
  unfold ensureFound
  rw [h]
  exact if_pos ⟨hp, hne⟩

/-- C2 (amended): on a name collision (a cached entry whose recorded parent
differs from the current parent), the lookup-only resolver
find_collection_by_path warns and proceeds with the cached entry's
identifier — and performs no creation call anywhere — but the creating
resolver ensure_collection_path treats the entry as absent and creates a new
folder for that segment instead of reusing the cached entry. -/
theorem c2_collision_policy :
    (∀ (part : String) (rest : List String) (pn : String) (lk : Option String)
      (cache : Cache) (st : ZState) (e pe : Entry),
      cacheFind cache part = some e → cacheFind cache pn = some pe →
      e.parent ≠ some pe.key →
      findLoop (part :: rest) (some pn) lk cache st
        = findLoop rest (some part) (some e.key) cache
            { st with warnings := st.warnings ++ [part] }) ∧
    (∀ (parts : List String) (pn lk : Option String) (cache : Cache) (st : ZState),
      ((findLoop parts pn lk cache st).state).creations = st.creations) ∧
    (∀ (part : String) (pk : String) (cache : Cache) (st : ZState) (e : Entry),
      cacheFind cache part = some e → e.parent ≠ some pk →
      ensureStep false part (some pk) cache st
        = ((createCollection part (some pk) st).1,
           upsert cache part ⟨(createCollection part (some pk) st).1, some pk⟩,
           (createCollection part (some pk) st).2)) := by
  refine ⟨?_, findLoop_creations, ?_⟩
  · intro part rest pn lk cache st e pe h1 h2 hne
    simp only [findLoop, h1, h2]
    rw [if_pos hne]
  · intro part pk cache st e h1 hne
    exact ensureStep_notfound_live st (ensureFound_collision h1 (by simp) hne)

theorem c2_collision_policy_witness :
    ensureStep false "B" (some "KA") [("B", ⟨"KB", some "X"⟩)] zInit
      = ((createCollection "B" (some "KA") zInit).1,
         upsert [("B", ⟨"KB", some "X"⟩)] "B"
           ⟨(createCollection "B" (some "KA") zInit).1, some "KA"⟩,
         (createCollection "B" (some "KA") zInit).2) :=
  c2_collision_policy.2.2 "B" "KA" [("B", ⟨"KB", some "X"⟩)] zInit ⟨"KB", some "X"⟩
    (by decide) (by decide)

/-- C2 counterexample: with the cache mapping "A" to KA (top level) and "B"
to KB under a different parent "X", resolving "A/B" in live mode does not
return the cached identifier KB: it creates a new folder for "B". -/
theorem c2_counterexample :
    (ensure_collection_path false "A/B"
      [("A", ⟨"KA", none⟩), ("B", ⟨"KB", some "X"⟩)] zInit).1 ≠ some "KB" ∧
    ((ensure_collection_path false "A/B"
      [("A", ⟨"KA", none⟩), ("B", ⟨"KB", some "X"⟩)] zInit).2.2).creations
      = [("B", some "KA")] := by
  decide

theorem ensureStep_refreshes (dry : Bool) (part : String) (pk : Option String)
    (cache : Cache) (st : ZState) :
    ((ensureStep dry part pk cache st).2.2).refreshes = st.refreshes := by
  cases hf : ensureFound part pk cache with
  | some k => rw [ensureStep_found st hf dry]
  | none =>
    cases dry with
    | true => rw [ensureStep_notfound_dry st hf]
    | false => rw [ensureStep_notfound_live st hf]; rfl

theorem ensureLoop_refreshes (dry : Bool) : ∀ (parts : List String)
    (pk : Option String) (cache : Cache) (st : ZState),
    ((ensureLoop dry parts pk cache st).2.2).refreshes = st.refreshes
  | [], _, _, _ => rfl
  | part :: rest, pk, cache, st => by
    rw [ensureLoop]
    rw [ensureLoop_refreshes dry rest _ _ _]
    exact ensureStep_refreshes dry part pk cache st

/-- C3 (amended): ensure_collection_path never refreshes the cache from the
remote listing; on a cache miss it directly creates a remote folder with the
segment name and current parent, inserts the node into the cache and
persists. The refresh-once-and-retry behaviour lives in
find_collection_by_path, which, when the segment is still absent after the
refresh, returns None without creating anything. -/
theorem c3_miss_policy :
    (∀ (dry : Bool) (path : String) (cache : Cache) (st : ZState),
      ((ensure_collection_path dry path cache st).2.2).refreshes = st.refreshes) ∧
    (∀ (part : String) (pk : Option String) (cache : Cache) (st : ZState),
      cacheFind cache part = none →
      ensureStep false part pk cache st
        = (freshKey st.nextId, upsert cache part ⟨freshKey st.nextId, pk⟩,
           { st with
             remote := st.remote ++ [⟨freshKey st.nextId, part, pk⟩]
             nextId := st.nextId + 1
             creations := st.creations ++ [(part, pk)]
             saves := st.saves + 1 })) ∧
    (∀ (part : String) (rest : List String) (pn lk : Option String) (cache : Cache)
      (st : ZState),
      cacheFind cache part = none →
      cacheFind (refresh_cache_from_zotero st).1 part = none →
      findLoop (part :: rest) pn lk cache st
        = .done none (refresh_cache_from_zotero st).1
            { st with refreshes := st.refreshes + 1, saves := st.saves + 1 }) := by
  refine ⟨?_, ?_, ?_⟩
  · intro dry path cache st
    unfold ensure_collection_path
    split
    · rfl
    · exact ensureLoop_refreshes dry (splitPath path) none cache st
  · intro part pk cache st h
    have hf : ensureFound part pk cache = none := by
      unfold ensureFound
      rw [h]
    exact ensureStep_notfound_live st hf
  · intro part rest pn lk cache st h1 h2
    simp only [findLoop, h1, h2]
    rfl

theorem c3_miss_policy_witness :
    ensureStep false "A" none [] zInit
      = (freshKey 0, upsert [] "A" ⟨freshKey 0, none⟩,
         { zInit with
           remote := zInit.remote ++ [⟨freshKey 0, "A", none⟩]
           nextId := 1
           creations := zInit.creations ++ [("A", none)]
           saves := 1 }) :=
  c3_miss_policy.2.1 "A" none [] zInit (by decide)

/-- C3 counterexample: with an empty cache and a remote listing that already
contains a collection named "A" with key KA, ensure_collection_path performs
zero refreshes and one creation, and returns a fresh key instead of KA —
it never consults the remote listing before creating. -/
theorem c3_counterexample :
    ((ensure_collection_path false "A" []
        ⟨[⟨"KA", "A", none⟩], 0, [], 0, 0, []⟩).2.2).refreshes = 0 ∧
    ((ensure_collection_path false "A" []
        ⟨[⟨"KA", "A", none⟩], 0, [], 0, 0, []⟩).2.2).creations = [("A", none)] ∧
    (ensure_collection_path false "A" []
        ⟨[⟨"KA", "A", none⟩], 0, [], 0, 0, []⟩).1 ≠ some "KA" := by
  decide

theorem ensureLoop_dry_pure : ∀ (parts : List String) (pk : Option String)
    (cache : Cache) (st : ZState),
    (ensureLoop true parts pk cache st).2.1 = cache ∧
    (ensureLoop true parts pk cache st).2.2 = st
  | [], _, _, _ => ⟨rfl, rfl⟩
  | part :: rest, pk, cache, st => by
    rw [ensureLoop]
    cases hf : ensureFound part pk cache with
    | some k =>
      rw [ensureStep_found st hf true]
      exact ensureLoop_dry_pure rest _ _ _
    | none =>
      rw [ensureStep_notfound_dry st hf]
      exact ensureLoop_dry_pure rest _ _ _

theorem keysToAdd_side {ko : Option String} {k : String}
    (hk : k ∈ (match ko with
      | some kk => if kk ≠ "" ∧ ¬ ("fake".data.isPrefixOf kk.data) then [kk] else []
      | none => ([] : List String))) :
    "fake".data.isPrefixOf k.data = false := by
  cases ko with
  | none => simp at hk
  | some kk =>
    have hk2 : k ∈ (if kk ≠ "" ∧ ¬ ("fake".data.isPrefixOf kk.data)
        then [kk] else ([] : List String)) := hk
    by_cases hc : kk ≠ "" ∧ ¬ ("fake".data.isPrefixOf kk.data)
    · rw [if_pos hc] at hk2
      rw [List.mem_singleton] at hk2
      subst hk2
      exact Bool.of_not_eq_true hc.2
    · rw [if_neg hc] at hk2
      simp at hk2

/-- C4: in dry-run mode path resolution never mutates the cache or the
remote state (in particular it performs zero creation calls), a segment that
is not usable from the cache yields a placeholder key with the distinct
prefix "fake_", and a fake-prefixed identifier is discarded before the real
move/add-to-collection operation both in organize.move_item_to_collection
and in the organizer.main key filter, in every mode. -/
theorem c4_dry_run_placeholders :
    (∀ (path : String) (cache : Cache) (st : ZState),
      (ensure_collection_path true path cache st).2.1 = cache ∧
      (ensure_collection_path true path cache st).2.2 = st) ∧
    (∀ (part : String) (pk : Option String) (cache : Cache) (st : ZState),
      ensureFound part pk cache = none →
      (ensureStep true part pk cache st).1
        = "fake_" ++ part ++ "_" ++ pk.getD "root") ∧
    (∀ (dry : Bool) (cols tags : List String) (k : String),
      "fake_".data.isPrefixOf k.data = true →
      move_item_to_collection dry cols tags (some k) = []) ∧
    (∀ (k1 k2 : Option String) (k : String), k ∈ keysToAdd k1 k2 →
      "fake".data.isPrefixOf k.data = false) := by
  refine ⟨?_, ?_, ?_, ?_⟩
  · intro path cache st
    unfold ensure_collection_path
    split
    · exact ⟨rfl, rfl⟩
    · exact ensureLoop_dry_pure (splitPath path) none cache st
  · intro part pk cache st hf
    rw [ensureStep_notfound_dry st hf]
  · intro dry cols tags k h
    by_cases hk : k = "" <;> simp [move_item_to_collection, hk, h]
  · intro k1 k2 k hk
    unfold keysToAdd at hk
    rw [List.mem_append] at hk
    rcases hk with hk | hk
    · exact keysToAdd_side hk
    · exact keysToAdd_side hk

theorem c4_dry_run_placeholders_witness :
    move_item_to_collection false [] [] (some "fake_A_root") = [] :=
  c4_dry_run_placeholders.2.2.1 false [] [] "fake_A_root" (by decide)

/-! ## Batch processing: organize.py main, classification loop
(lines 404-446) -/

/-- The item data used by the per-index body. -/
structure Item where
  collections : List String
  tags : List String
deriving DecidableEq, Repr

/-- State threaded through the classification loop of organize.main. -/
structure BatchState where
  cache : Cache
  zst : ZState
  organized : Nat
  errorsLogged : Nat
  moveOps : List MoveOp
deriving DecidableEq, Repr

/-- `int(idx_str)` for the nonnegative decimal keys the classifier returns;
any other string raises ValueError, modelled as the error value. -/
def parseIndex (s : String) : Except String Nat :=
  if s.data ≠ [] ∧ s.data.all Char.isDigit then
    .ok (s.data.foldl (fun n c => n * 10 + (c.toNat - 48)) 0)
  else .error s

/-- The body of `for idx_str, path in classifications.items()` in
organize.main: parse the index (may raise), skip out-of-range indices,
resolve the path with ensure_collection_path, and, when a target key was
obtained, count the item as organized and perform the move (live mode
only; in dry-run mode main prints instead of calling the move). -/
def processOne (dry : Bool) (batch : List Item) (dec : String × String)
    (s : BatchState) : Except String BatchState :=
  match parseIndex dec.1 with
  | .error e => .error e
  | .ok idx =>
    if h : idx < batch.length then
      match ensure_collection_path dry dec.2 s.cache s.zst with
      | (some k, c1, st1) =>
        .ok { s with
          cache := c1, zst := st1, organized := s.organized + 1,
          moveOps := s.moveOps ++
            (if dry then [] else
              move_item_to_collection dry (batch.get ⟨idx, h⟩).collections
                (batch.get ⟨idx, h⟩).tags (some k)) }
      | (none, c1, st1) => .ok { s with cache := c1, zst := st1 }
    else .ok s

/-- The `try/except` around the body: an exception is logged (errorsLogged)
and the loop continues with the next decision. -/
def processOneCaught (dry : Bool) (batch : List Item) (s : BatchState)
    (dec : String × String) : BatchState :=
  match processOne dry batch dec s with
  | .ok s1 => s1
  | .error _ => { s with errorsLogged := s.errorsLogged + 1 }

/-- The per-batch loop over the classifier's decisions. -/
def runBatchLoop (dry : Bool) (batch : List Item) (decs : List (String × String))
    (s : BatchState) : BatchState :=
  decs.foldl (processOneCaught dry batch) s

/-- The outer loop over batches, each batch paired with its decisions. -/
def runBatches (dry : Bool) (batches : List (List Item × List (String × String)))
    (s : BatchState) : BatchState :=
  batches.foldl (fun s b => runBatchLoop dry b.1 b.2 s) s

/-- C6: an exception while processing one classified index is caught inside
the per-index loop: the failing decision only increments the error log and
the remaining decisions are processed exactly as from that state (no
propagation, by the type of runBatchLoop); batch processing composes over
concatenation, so no batch aborts the subsequent ones. -/
theorem c6_exception_containment :
    (∀ (dry : Bool) (batch : List Item) (d : String × String)
      (ds : List (String × String)) (s : BatchState) (msg : String),
      processOne dry batch d s = .error msg →
      runBatchLoop dry batch (d :: ds) s
        = runBatchLoop dry batch ds
            { s with errorsLogged := s.errorsLogged + 1 }) ∧
    (∀ (dry : Bool) (bs1 bs2 : List (List Item × List (String × String)))
      (s : BatchState),
      runBatches dry (bs1 ++ bs2) s = runBatches dry bs2 (runBatches dry bs1 s)) := by
  constructor
  · intro dry batch d ds s msg h
    unfold runBatchLoop
    rw [List.foldl_cons]
    unfold processOneCaught
    rw [h]
  · intro dry bs1 bs2 s
    unfold runBatches
    rw [List.foldl_append]

theorem c6_exception_containment_witness :
    runBatchLoop false [⟨[], []⟩] [("x", "A"), ("0", "B")] ⟨[], zInit, 0, 0, []⟩
      = runBatchLoop false [⟨[], []⟩] [("0", "B")]
          ⟨[], zInit, 0, 0 + 1, []⟩ :=
  c6_exception_containment.1 false [⟨[], []⟩] ("x", "A") [("0", "B")]
    ⟨[], zInit, 0, 0, []⟩ "x" rfl

end Spec2Proof
